import Mathlib

/-!
Shallow embedding of `src/lm/mph_language_model.cpp` from the meta toolkit:
the streaming ARPA-to-compact-map build pipeline (`read_from_arpa`, the
`ngram_handler` order-transition controller, and `build_from_arpa`).

Machine floats are modelled by exact decimal values (`float32` below): the
pipeline only parses, stores and moves probability/backoff values, it never
computes with them, so an exact, canonically represented decimal is a
faithful carrier for the literals of ARPA files.
`uint64_t` counters are modelled as `Nat` (they only ever increment and stay
far below `2^64`); the one place where `size_t` wrap-around is observable,
`counts_.size() - 1` on an empty vector, is modelled explicitly by
`size_sub_one`.  C++ behaviours that abort or are undefined are made explicit
as error values: a thrown `std::runtime_error` becomes `tooManyGrams`,
`unknownUnigram` or `parseError`; an out-of-bounds `std::vector::operator[]`
becomes `oobIndex`; dereferencing a null `std::unique_ptr` becomes
`nullDeref`; a failed `assert` becomes `assertFailed`.  An `Except.error`
result models the C++ exception/abort: it occurs at exactly the program
point where the C++ run dies, so no later side effect of that call happens.

The `ngram_map` / `ngram_map_builder` classes are not part of the excerpt;
builders are modelled as accumulators of their insertions and the reopened
order-0 map (the vocabulary) is modelled from the spec (see `Vocab.index`).
-/

namespace MphLM

/-- The exact value of a decimal literal, `mant / 10 ^ exp10`, kept in the
canonical form where `mant` is not a multiple of 10 unless `exp10 = 0`.
This models a C++ `float` holding a parsed ARPA literal: the pipeline never
does arithmetic on these values, only stores and moves them, so value
identity of the source literal is all that matters. -/
structure float32 where
  mant : Int
  exp10 : Nat
deriving DecidableEq, Repr

/-- Normalize a decimal `m / 10 ^ e` to canonical form. -/
def float32.canon : Int → Nat → float32
  | m, 0 => ⟨m, 0⟩
  | m, e + 1 => if m % 10 = 0 then float32.canon (m / 10) e else ⟨m, e + 1⟩

/-- The float value `0.0`. -/
def float32.zero : float32 := ⟨0, 0⟩

/-- Negation; canonical forms stay canonical. -/
def float32.neg (f : float32) : float32 := ⟨-f.mant, f.exp10⟩

/-- The `prob_backoff<>` value type of the source: a probability and a
backoff weight. -/
structure prob_backoff where
  prob : float32
  backoff : float32
deriving DecidableEq, Repr

/-- Errors of the build pipeline.  The first three model thrown
`std::runtime_error`s; `oobIndex` models an out-of-bounds
`std::vector::operator[]` (undefined behaviour in C++); `nullDeref` models
dereferencing a null `std::unique_ptr` (undefined behaviour); `assertFailed`
models a failing `assert`. -/
inductive BuildError where
  | parseError
  | tooManyGrams (order : Nat)
  | unknownUnigram (token : String)
  | oobIndex
  | nullDeref
  | assertFailed
deriving DecidableEq, Repr

/-- Filesystem side effects performed by the pipeline, recorded oldest
first. -/
inductive FsOp where
  | removeAll (path : String)
  | makeDirectory (path : String)
  | writeMap (path : String)
deriving DecidableEq, Repr

/-- `ngram_map_builder<std::string>` (the unigram builder): created with an
output prefix for order `ord` and an expected key count `num_keys`, it
accumulates its insertions.  The minimal-perfect-hash construction performed
at `write()` is outside the excerpt; the builder is modelled as the exact
sequence of insertions it received. -/
structure unigram_builder_type where
  ord : Nat
  num_keys : Nat
  entries : List (String × prob_backoff)
deriving DecidableEq, Repr

/-- `ngram_map_builder<std::vector<uint64_t>>` (a middle-order builder):
keys are id sequences, values are `prob_backoff` pairs. -/
structure middle_builder_type where
  ord : Nat
  num_keys : Nat
  entries : List (List Nat × prob_backoff)
deriving DecidableEq, Repr

/-- `ngram_map_builder<std::vector<uint64_t>, float>` (the last-order
builder): keys are id sequences, values are probabilities alone. -/
structure last_builder_type where
  ord : Nat
  num_keys : Nat
  entries : List (List Nat × float32)
deriving DecidableEq, Repr

/-- A finalized on-disk map, as written by a builder's `write()`. -/
inductive WrittenMap where
  | unigram (ord : Nat) (entries : List (String × prob_backoff))
  | middle (ord : Nat) (entries : List (List Nat × prob_backoff))
  | last (ord : Nat) (entries : List (List Nat × float32))
deriving DecidableEq, Repr

/-- The order a written map belongs to. -/
def WrittenMap.ord : WrittenMap → Nat
  | .unigram o _ => o
  | .middle o _ => o
  | .last o _ => o

/-- First index of `w` in a key list, if present. -/
def find_idx (w : String) : List String → Option Nat
  | [] => none
  | k :: ks => if k = w then some 0 else (find_idx w ks).map (· + 1)

/-- Modelled from the spec: `ngram_map<std::string>`, the finalized order-0
map reopened read-only as the vocabulary.  Its `index` method maps each word
of the build-time key set to its unique dense id and returns `none` for
words never inserted (spec sections 3 and 4.3: round-trip for inserted keys,
"absent" for others).  The concrete minimal-perfect-hash id assignment is
unspecified by the source excerpt; ids are modelled as insertion
positions. -/
structure Vocab where
  keys : List String
deriving DecidableEq, Repr

/-- Word-to-id lookup on the vocabulary (`unigrams_->index(...)`). -/
def Vocab.index (v : Vocab) (w : String) : Option Nat :=
  find_idx w v.keys

/-- `counts_.size() - 1` computed in `size_t` arithmetic: on an empty
vector C++ wraps to `2^64 - 1`. -/
def size_sub_one (n : Nat) : Nat :=
  if n = 0 then 2 ^ 64 - 1 else n - 1

/-- The state of the `ngram_handler` controller, plus two ghost
observations: the maps written so far (`written`) and the filesystem
operations performed so far (`trace`). -/
structure ngram_handler where
  out_dir : String
  order_ : Nat := 0
  observed_ : Nat := 0
  counts_ : List Nat := []
  unigram_builder_ : Option unigram_builder_type := none
  unigrams_ : Option Vocab := none
  middle_builder_ : Option middle_builder_type := none
  last_builder_ : Option last_builder_type := none
  written : List WrittenMap := []
  trace : List FsOp := []
deriving DecidableEq, Repr

/-- `ngram_handler::count`: append a declared count; on the first declared
count, create the order-0 directory and the unigram builder with
`num_keys` equal to that count. -/
def ngram_handler.count (s : ngram_handler) (n : Nat) : ngram_handler :=
  if s.counts_ = [] then
    { s with counts_ := s.counts_ ++ [n],
             trace := s.trace ++ [.makeDirectory (s.out_dir ++ "/0/")],
             unigram_builder_ := some ({ ord := 0, num_keys := n, entries := [] }) }
  else { s with counts_ := s.counts_ ++ [n] }

/-- Split an n-gram's text on the single delimiter `' '`
(`util::for_each_token` with delims `" "`), keeping the raw runs including
empty ones; the caller filters the empty ones exactly as the C++ lambda
does. -/
def tokenize_aux : List Char → List Char → List (List Char)
  | [], acc => [acc.reverse]
  | c :: cs, acc =>
    if c = ' ' then acc.reverse :: tokenize_aux cs [] else tokenize_aux cs (c :: acc)

/-- The non-empty whitespace-separated tokens of an n-gram's text, in
order. -/
def tokenize (s : String) : List String :=
  ((tokenize_aux s.data []).filter (· ≠ [])).map (fun cs => String.mk cs)

/-- Resolve each token to its vocabulary id, left to right, failing at the
first token with no id (the loop body of `ngram_handler::operator()` for
order ≥ 1). -/
def resolve_ids (v : Vocab) : List String → Except BuildError (List Nat)
  | [] => .ok []
  | t :: ts =>
    match v.index t with
    | none => .error (.unknownUnigram t)
    | some i =>
      match resolve_ids v ts with
      | .error e => .error e
      | .ok ids => .ok (i :: ids)

/-- The forwarding stage of `ngram_handler::operator()` (source lines
113-155): after the count check has passed, route the gram to the unigram
builder (order 0) or resolve its tokens and route the id sequence to the
middle or last builder. -/
def ngram_handler.forward (s : ngram_handler) (order : Nat) (ngram : String)
    (prob backoff : float32) : Except BuildError ngram_handler :=
  if s.order_ = 0 then
    match s.unigram_builder_ with
    | none => .error .assertFailed
    | some ub =>
      .ok { s with
              unigram_builder_ := (some { ub with
                entries := ub.entries ++ [(ngram, ⟨prob, backoff⟩)] }) }
  else if s.middle_builder_ = none ∧ s.last_builder_ = none then .error .assertFailed
  else
    match s.unigrams_ with
    | none => .error .assertFailed
    | some vocab =>
      match resolve_ids vocab (tokenize ngram) with
      | .error e => .error e
      | .ok ids =>
        if ids.length ≠ order + 1 then .error .assertFailed
        else if s.order_ ≠ size_sub_one s.counts_.length then
          match s.middle_builder_ with
          | none => .error .nullDeref
          | some mb =>
            .ok { s with
                    middle_builder_ := (some { mb with
                      entries := mb.entries ++ [(ids, ⟨prob, backoff⟩)] }) }
        else
          match s.last_builder_ with
          | none => .error .nullDeref
          | some lb =>
            .ok { s with
                    last_builder_ := (some { lb with
                      entries := lb.entries ++ [(ids, prob)] }) }

/-- `ngram_handler::finish_order`: reset the observed count, write the
active builder, and open the next order's builder (and, after order 0, the
read-only vocabulary). -/
def ngram_handler.finish_order (s : ngram_handler) : Except BuildError ngram_handler :=
  if s.order_ = 0 then
    match s.unigram_builder_ with
    | none => .error .assertFailed
    | some ub =>
      match s.counts_.get? (s.order_ + 1) with
      | none => .error .oobIndex
      | some k =>
        .ok { s with observed_ := 0,
                     unigram_builder_ := none,
                     unigrams_ := some ⟨ub.entries.map Prod.fst⟩,
                     middle_builder_ := (some { ord := s.order_ + 1, num_keys := k, entries := [] }),
                     written := s.written ++ [.unigram 0 ub.entries],
                     trace := (s.trace ++
                        [.writeMap (s.out_dir ++ "/0/"),
                         .makeDirectory (s.out_dir ++ "/" ++ Nat.repr (s.order_ + 1))]) }
  else if s.order_ < size_sub_one s.counts_.length then
    match s.middle_builder_ with
    | none => .error .assertFailed
    | some mb =>
      if s.order_ + 1 < size_sub_one s.counts_.length then
        match s.counts_.get? (s.order_ + 1) with
        | none => .error .oobIndex
        | some k =>
          .ok { s with observed_ := 0,
                       middle_builder_ := (some { ord := s.order_ + 1, num_keys := k, entries := [] }),
                       written := s.written ++ [.middle mb.ord mb.entries],
                       trace := (s.trace ++
                          [.writeMap (s.out_dir ++ "/" ++ Nat.repr mb.ord),
                           .makeDirectory (s.out_dir ++ "/" ++ Nat.repr (s.order_ + 1))]) }
      else
        match s.counts_.get? (s.order_ + 1) with
        | none => .error .oobIndex
        | some k =>
          .ok { s with observed_ := 0,
                       middle_builder_ := none,
                       last_builder_ := (some { ord := s.order_ + 1, num_keys := k, entries := [] }),
                       written := s.written ++ [.middle mb.ord mb.entries],
                       trace := (s.trace ++
                          [.writeMap (s.out_dir ++ "/" ++ Nat.repr mb.ord),
                           .makeDirectory (s.out_dir ++ "/" ++ Nat.repr (s.order_ + 1))]) }
  else
    match s.last_builder_ with
    | none => .error .assertFailed
    | some lb =>
      .ok { s with observed_ := 0,
                   last_builder_ := none,
                   written := s.written ++ [.last lb.ord lb.entries],
                   trace := s.trace ++ [.writeMap (s.out_dir ++ "/" ++ Nat.repr lb.ord)] }

/-- The order-transition prelude of `ngram_handler::operator()` (source
lines 102-106): when a tuple of a strictly higher order arrives, finalize
the current order and advance `order_`. -/
def ngram_handler.advance_order (s : ngram_handler) (order : Nat) :
    Except BuildError ngram_handler :=
  if s.order_ < order then
    match s.finish_order with
    | .error e => .error e
    | .ok s' => .ok { s' with order_ := order }
  else .ok s

/-- `ngram_handler::operator()`: advance the order if needed, increment the
observed count, enforce the declared count for `order`, then forward the
gram. -/
def ngram_handler.handle (s : ngram_handler) (order : Nat) (ngram : String)
    (prob backoff : float32) : Except BuildError ngram_handler :=
  match s.advance_order order with
  | .error e => .error e
  | .ok s₁ =>
    match s₁.counts_.get? order with
    | none => .error .oobIndex
    | some c =>
      if c < s₁.observed_ + 1 then .error (.tooManyGrams order)
      else ngram_handler.forward { s₁ with observed_ := s₁.observed_ + 1 } order ngram prob backoff

/-! ### The ARPA stream reader (`read_from_arpa`) -/

/-- The value of a run of decimal digits. -/
def digits_to_nat (ds : List Char) : Nat :=
  ds.foldl (fun n c => 10 * n + (c.toNat - 48)) 0

/-- `std::stoul` on the digit strings of ARPA headers: the longest leading
digit run, failing (throwing, in C++) when there is none. -/
def parse_nat (cs : List Char) : Option Nat :=
  if cs.takeWhile Char.isDigit = [] then none
  else some (digits_to_nat (cs.takeWhile Char.isDigit))

/-- The unsigned part of `std::stof` on the plain decimal literals ARPA
files carry: a longest leading run `digits [ . digits ]`, trailing
characters ignored, failing when no digit is read.  The digits before and
after the point give the exact value
`(ip * 10 ^ |fp| + fp) / 10 ^ |fp|`. -/
def parse_unsigned (cs : List Char) : Option float32 :=
  match cs.dropWhile Char.isDigit with
  | '.' :: rest2 =>
    if cs.takeWhile Char.isDigit = [] ∧ rest2.takeWhile Char.isDigit = [] then none
    else some (float32.canon
        ((digits_to_nat (cs.takeWhile Char.isDigit) *
            10 ^ (rest2.takeWhile Char.isDigit).length +
          digits_to_nat (rest2.takeWhile Char.isDigit) : Nat) : Int)
        (rest2.takeWhile Char.isDigit).length)
  | _ =>
    if cs.takeWhile Char.isDigit = [] then none
    else some ⟨(digits_to_nat (cs.takeWhile Char.isDigit) : Int), 0⟩

/-- `std::stof` on the decimal literals of ARPA data lines: optional sign,
then `parse_unsigned`. -/
def parse_float (cs : List Char) : Option float32 :=
  match cs with
  | '-' :: rest => (parse_unsigned rest).map float32.neg
  | '+' :: rest => parse_unsigned rest
  | _ => parse_unsigned cs

/-- Split a character list at the first occurrence of `c`
(`find_first_of`), returning the parts strictly before and strictly after
it, or `none` when `c` does not occur (`npos`). -/
def split_first (c : Char) : List Char → Option (List Char × List Char)
  | [] => none
  | x :: xs =>
    if x = c then some ([], xs)
    else
      match split_first c xs with
      | none => none
      | some (b, a) => some (x :: b, a)

/-- The data-line parse of `read_from_arpa` (source lines 59-67):
`probability \t gram-text [ \t backoff ]`.  The probability is everything
before the first tab, the gram text everything strictly between the first
and second tab, the backoff everything after the second tab, defaulting to
`0.0` when there is no second tab.  When the line has no tab at all, C++
substring arithmetic on `npos` makes both the probability field and the
gram text the whole line. -/
def parse_data_line (cs : List Char) : Except BuildError (float32 × String × float32) :=
  match split_first '\t' cs with
  | none =>
    match parse_float cs with
    | none => .error .parseError
    | some p => .ok (p, String.mk cs, float32.zero)
  | some (before, after) =>
    match parse_float before with
    | none => .error .parseError
    | some p =>
      match split_first '\t' after with
      | none => .ok (p, String.mk after, float32.zero)
      | some (g, rest) =>
        match parse_float rest with
        | none => .error .parseError
        | some bo => .ok (p, String.mk g, bo)

/-- `buffer.find("ngram ") == 0`. -/
def line_is_ngram_decl (line : String) : Bool :=
  line.data.take 6 = ['n', 'g', 'r', 'a', 'm', ' ']

/-- `buffer.find("\1-grams:") == 0`. -/
def line_is_grams_start (line : String) : Bool :=
  line.data.take 9 = ['\\', '1', '-', 'g', 'r', 'a', 'm', 's', ':']

/-- The count argument of an `ngram <k>=<count>` header line:
`stoul(buffer.substr(equal + 1))` where `equal = find_first_of("=")`; when
there is no `=`, `npos + 1` wraps to `0` and C++ tries to parse the whole
line. -/
def header_count_arg (line : String) : Option Nat :=
  match split_first '=' line.data with
  | some (_, after) => parse_nat after
  | none => parse_nat line.data

/-- The header loop of `read_from_arpa` (source lines 33-43): register
each declared count, stop after the `\1-grams:` line, and return the
remaining lines. -/
def read_header : ngram_handler → List String → Except BuildError (ngram_handler × List String)
  | s, [] => .ok (s, [])
  | s, line :: rest =>
    if line_is_ngram_decl line then
      match header_count_arg line with
      | none => .error .parseError
      | some n =>
        if line_is_grams_start line then .ok (s.count n, rest)
        else read_header (s.count n) rest
    else if line_is_grams_start line then .ok (s, rest)
    else read_header s rest

/-- The data loop of `read_from_arpa` (source lines 45-68): skip blank
lines and the end marker, bump the order at each `\`-line, and hand every
data line to the controller. -/
def read_data : ngram_handler → Nat → List String → Except BuildError ngram_handler
  | s, _, [] => .ok s
  | s, order, line :: rest =>
    match line.data with
    | [] => read_data s order rest
    | c :: cs =>
      if c = '\\' ∧ cs.head? = some 'e' then read_data s order rest
      else if c = '\\' then read_data s (order + 1) rest
      else
        match parse_data_line line.data with
        | .error e => .error e
        | .ok (p, g, b) =>
          match s.handle order g p b with
          | .error e => .error e
          | .ok s' => read_data s' order rest

/-- `read_from_arpa`: the header loop followed by the data loop, the input
file given as its list of lines. -/
def read_from_arpa (lines : List String) (s : ngram_handler) :
    Except BuildError ngram_handler :=
  match read_header s lines with
  | .error e => .error e
  | .ok (s, rest) => read_data s 0 rest

/-- The handler as `build_from_arpa` constructs it, after the driver has
already removed and recreated the output prefix (source lines 242-244). -/
def initial_handler (out_dir : String) : ngram_handler :=
  { out_dir := out_dir,
    trace := [FsOp.removeAll out_dir, FsOp.makeDirectory out_dir] }

/-- `build_from_arpa`: destroy and recreate the output prefix, stream the
file through the controller, finish the final order, and return
`handler.order()`.  The final controller state is returned alongside as a
ghost observation of the on-disk outcome. -/
def build_from_arpa (lines : List String) (out_dir : String) :
    Except BuildError (Nat × ngram_handler) :=
  match read_from_arpa lines (initial_handler out_dir) with
  | .error e => .error e
  | .ok s =>
    match s.finish_order with
    | .error e => .error e
    | .ok s => .ok (s.order_, s)

/-- The number of live builders a controller state holds. -/
def ngram_handler.active_builders (s : ngram_handler) : Nat :=
  (if s.unigram_builder_.isSome then 1 else 0) +
  (if s.middle_builder_.isSome then 1 else 0) +
  (if s.last_builder_.isSome then 1 else 0)

/-- Value of an `Except`, with a default for the error case. -/
def except_get_d : Except ε α → α → α
  | .ok a, _ => a
  | .error _, d => d

/-- Whether an `Except` is a success. -/
def except_is_ok : Except ε α → Bool
  | .ok _ => true
  | .error _ => false

instance instDecEqExcept [DecidableEq ε] [DecidableEq α] : DecidableEq (Except ε α) := fun x y =>
  match x, y with
  | .ok a, .ok b =>
    if h : a = b then .isTrue (congrArg Except.ok h)
    else .isFalse (fun hc => h (Except.ok.inj hc))
  | .error e, .error f =>
    if h : e = f then .isTrue (congrArg Except.error h)
    else .isFalse (fun hc => h (Except.error.inj hc))
  | .ok _, .error _ => .isFalse (fun hc => Except.noConfusion hc)
  | .error _, .ok _ => .isFalse (fun hc => Except.noConfusion hc)

/-! ### Concrete inputs used by the claim theorems -/

/-- A handler state with nothing declared and nothing active. -/
def empty_handler : ngram_handler := { out_dir := "" }

/-- The two-order ARPA file of the spec's end-to-end scenario:
`ngram 1=3`, `ngram 2=2`, unigrams `a`, `b`, `<unk>` and bigrams
`a b`, `b a`. -/
def c2_lines : List String :=
  ["\\data\\", "ngram 1=3", "ngram 2=2", "", "\\1-grams:",
   "-1.0\ta\t-0.3", "-2.0\tb\t-0.1", "-3.0\t<unk>\t0.0",
   "\\2-grams:", "-0.5\ta b", "-0.7\tb a", "\\end\\"]

/-- The controller state of a two-order build just before order 0 is
finalized: `counts = [3, 2]`, all three declared unigrams already inserted
into the active unigram builder. -/
def c1_state : ngram_handler :=
  { out_dir := "out"
    observed_ := 3
    counts_ := [3, 2]
    unigram_builder_ := (some { ord := 0
                                num_keys := 3
                                entries := [("a", ⟨⟨-1, 0⟩, ⟨-3, 1⟩⟩), ("b", ⟨⟨-2, 0⟩, ⟨-1, 1⟩⟩),
                                            ("<unk>", ⟨⟨-3, 0⟩, ⟨0, 0⟩⟩)] }) }

/-- The state `finish_order` produces from `c1_state`. -/
def c1_after : ngram_handler := except_get_d c1_state.finish_order empty_handler

/-- An ARPA header declaring `ngram 1=2` followed by its first two unigram
data lines. -/
def c7_first_lines : List String :=
  ["ngram 1=2", "\\1-grams:", "-1.0\ta\t-0.1", "-2.0\tb\t-0.2"]

/-- The same file with the third unigram line — the first line beyond the
declared count of 2. -/
def c7_lines : List String := c7_first_lines ++ ["-3.0\tc\t-0.3"]

/-- A unigram-only ARPA file: a single declared order. -/
def c10_lines : List String :=
  ["ngram 1=2", "\\1-grams:", "-1.0\ta\t-0.1", "-2.0\tb\t-0.2"]

/-- A well-formed three-order ARPA file on which the build completes. -/
def c9_lines : List String :=
  ["\\data\\", "ngram 1=2", "ngram 2=1", "ngram 3=1", "", "\\1-grams:",
   "-1.0\ta\t-0.5", "-2.0\tb\t-0.4", "\\2-grams:", "-0.5\ta b\t-0.2",
   "\\3-grams:", "-0.3\ta b a", "\\end\\"]

/-- The final controller state of the successful `c9_lines` build. -/
def c9_state : ngram_handler :=
  except_get_d ((build_from_arpa c9_lines "out").map Prod.snd) empty_handler

/-! ### Inversion lemmas for the controller's operations -/

/-- Inversion for a successful `forward`: exactly one of the three builders
received the gram, and which one, and with which value, is determined by
`order_` and by whether `order_` is the final declared order. -/
theorem ngram_handler.forward_ok_cases {s s' : ngram_handler} {order : Nat}
    {g : String} {p b : float32}
    (h : s.forward order g p b = .ok s') :
    (s.order_ = 0 ∧ ∃ ub, s.unigram_builder_ = some ub ∧
        s' = { s with
                unigram_builder_ := (some { ub with
                  entries := ub.entries ++ [(g, ⟨p, b⟩)] }) }) ∨
    (s.order_ ≠ 0 ∧ s.order_ ≠ size_sub_one s.counts_.length ∧
        ∃ vocab ids mb, s.unigrams_ = some vocab ∧
          resolve_ids vocab (tokenize g) = .ok ids ∧ ids.length = order + 1 ∧
          s.middle_builder_ = some mb ∧
          s' = { s with
                  middle_builder_ := (some { mb with
                    entries := mb.entries ++ [(ids, ⟨p, b⟩)] }) }) ∨
    (s.order_ ≠ 0 ∧ s.order_ = size_sub_one s.counts_.length ∧
        ∃ vocab ids lb, s.unigrams_ = some vocab ∧
          resolve_ids vocab (tokenize g) = .ok ids ∧ ids.length = order + 1 ∧
          s.last_builder_ = some lb ∧
          s' = { s with
                  last_builder_ := (some { lb with
                    entries := lb.entries ++ [(ids, p)] }) }) := by
  unfold ngram_handler.forward at h
  split at h
  · next h0 =>
    split at h
    · exact absurd h (by simp)
    · next ub hub =>
      exact Or.inl ⟨h0, ub, hub, (Except.ok.inj h).symm⟩
  · next h0 =>
    split at h
    · exact absurd h (by simp)
    · next hbld =>
      split at h
      · exact absurd h (by simp)
      · next vocab hvoc =>
        split at h
        · exact absurd h (by simp)
        · next ids hres =>
          split at h
          · exact absurd h (by simp)
          · next hlen =>
            split at h
            · next hmid =>
              split at h
              · exact absurd h (by simp)
              · next mb hmb =>
                exact Or.inr (Or.inl ⟨h0, hmid, vocab, ids, mb, hvoc, hres,
                  not_ne_iff.mp hlen, hmb, (Except.ok.inj h).symm⟩)
            · next hlast =>
              split at h
              · exact absurd h (by simp)
              · next lb hlb =>
                exact Or.inr (Or.inr ⟨h0, not_ne_iff.mp hlast, vocab, ids, lb, hvoc, hres,
                  not_ne_iff.mp hlen, hlb, (Except.ok.inj h).symm⟩)

/-- Inversion for a successful `finish_order`: the four success paths of
the source (unigram write, middle write with a middle successor, middle
write with a last successor, last write). -/
theorem ngram_handler.finish_order_ok_cases {s s' : ngram_handler}
    (h : s.finish_order = .ok s') :
    (s.order_ = 0 ∧ ∃ ub k, s.unigram_builder_ = some ub ∧
        s.counts_.get? (s.order_ + 1) = some k ∧
        s' = { s with observed_ := 0,
                      unigram_builder_ := none,
                      unigrams_ := some ⟨ub.entries.map Prod.fst⟩,
                      middle_builder_ := (some { ord := s.order_ + 1, num_keys := k, entries := [] }),
                      written := s.written ++ [.unigram 0 ub.entries],
                      trace := (s.trace ++
                         [.writeMap (s.out_dir ++ "/0/"),
                          .makeDirectory (s.out_dir ++ "/" ++ Nat.repr (s.order_ + 1))]) }) ∨
    (s.order_ ≠ 0 ∧ s.order_ < size_sub_one s.counts_.length ∧
        s.order_ + 1 < size_sub_one s.counts_.length ∧
        ∃ mb k, s.middle_builder_ = some mb ∧
        s.counts_.get? (s.order_ + 1) = some k ∧
        s' = { s with observed_ := 0,
                      middle_builder_ := (some { ord := s.order_ + 1, num_keys := k, entries := [] }),
                      written := s.written ++ [.middle mb.ord mb.entries],
                      trace := (s.trace ++
                         [.writeMap (s.out_dir ++ "/" ++ Nat.repr mb.ord),
                          .makeDirectory (s.out_dir ++ "/" ++ Nat.repr (s.order_ + 1))]) }) ∨
    (s.order_ ≠ 0 ∧ s.order_ < size_sub_one s.counts_.length ∧
        ¬ s.order_ + 1 < size_sub_one s.counts_.length ∧
        ∃ mb k, s.middle_builder_ = some mb ∧
        s.counts_.get? (s.order_ + 1) = some k ∧
        s' = { s with observed_ := 0,
                      middle_builder_ := none,
                      last_builder_ := (some { ord := s.order_ + 1, num_keys := k, entries := [] }),
                      written := s.written ++ [.middle mb.ord mb.entries],
                      trace := (s.trace ++
                         [.writeMap (s.out_dir ++ "/" ++ Nat.repr mb.ord),
                          .makeDirectory (s.out_dir ++ "/" ++ Nat.repr (s.order_ + 1))]) }) ∨
    (s.order_ ≠ 0 ∧ ¬ s.order_ < size_sub_one s.counts_.length ∧
        ∃ lb, s.last_builder_ = some lb ∧
        s' = { s with observed_ := 0,
                      last_builder_ := none,
                      written := s.written ++ [.last lb.ord lb.entries],
                      trace := s.trace ++ [.writeMap (s.out_dir ++ "/" ++ Nat.repr lb.ord)] }) := by
  unfold ngram_handler.finish_order at h
  split at h
  · next h0 =>
    split at h
    · exact absurd h (by simp)
    · next ub hub =>
      split at h
      · exact absurd h (by simp)
      · next k hk =>
        exact Or.inl ⟨h0, ub, k, hub, hk, (Except.ok.inj h).symm⟩
  · next h0 =>
    split at h
    · next hlt =>
      split at h
      · exact absurd h (by simp)
      · next mb hmb =>
        split at h
        · next hlt2 =>
          split at h
          · exact absurd h (by simp)
          · next k hk =>
            exact Or.inr (Or.inl ⟨h0, hlt, hlt2, mb, k, hmb, hk, (Except.ok.inj h).symm⟩)
        · next hlt2 =>
          split at h
          · exact absurd h (by simp)
          · next k hk =>
            exact Or.inr (Or.inr (Or.inl ⟨h0, hlt, hlt2, mb, k, hmb, hk,
              (Except.ok.inj h).symm⟩))
    · next hlt =>
      split at h
      · exact absurd h (by simp)
      · next lb hlb =>
        exact Or.inr (Or.inr (Or.inr ⟨h0, hlt, lb, hlb, (Except.ok.inj h).symm⟩))

/-- Inversion for `advance_order`: either no transition happened, or
`finish_order` succeeded and the current order was overwritten. -/
theorem ngram_handler.advance_order_ok_cases {s s₁ : ngram_handler} {order : Nat}
    (h : s.advance_order order = .ok s₁) :
    (¬ s.order_ < order ∧ s₁ = s) ∨
    (s.order_ < order ∧ ∃ s₂, s.finish_order = .ok s₂ ∧ s₁ = { s₂ with order_ := order }) := by
  unfold ngram_handler.advance_order at h
  split at h
  · next hlt =>
    split at h
    · exact absurd h (by simp)
    · next s₂ hs₂ =>
      exact Or.inr ⟨hlt, s₂, hs₂, (Except.ok.inj h).symm⟩
  · next hlt =>
    exact Or.inl ⟨hlt, (Except.ok.inj h).symm⟩

/-- After a successful `advance_order` to a not-lower order, the current
order is the handled order. -/
theorem ngram_handler.advance_order_order_eq {s s₁ : ngram_handler} {order : Nat}
    (h : s.advance_order order = .ok s₁) (hord : s.order_ ≤ order) :
    s₁.order_ = order := by
  rcases s.advance_order_ok_cases h with ⟨hlt, rfl⟩ | ⟨hlt, s₂, _, rfl⟩
  · omega
  · rfl

/-- `forward` touches exactly one builder: every other field of the
controller is unchanged. -/
theorem ngram_handler.forward_ok_frame {s s' : ngram_handler} {order : Nat}
    {g : String} {p b : float32}
    (h : s.forward order g p b = .ok s') :
    s'.out_dir = s.out_dir ∧ s'.order_ = s.order_ ∧ s'.observed_ = s.observed_ ∧
    s'.counts_ = s.counts_ ∧ s'.unigrams_ = s.unigrams_ ∧
    s'.written = s.written ∧ s'.trace = s.trace := by
  rcases s.forward_ok_cases h with ⟨_, ub, _, rfl⟩ |
    ⟨_, _, vocab, ids, mb, _, _, _, _, rfl⟩ |
    ⟨_, _, vocab, ids, lb, _, _, _, _, rfl⟩ <;>
    exact ⟨rfl, rfl, rfl, rfl, rfl, rfl, rfl⟩

/-- `forward` replaces an existing builder with its extension, so the
number of live builders does not change. -/
theorem ngram_handler.forward_ok_active {s s' : ngram_handler} {order : Nat}
    {g : String} {p b : float32}
    (h : s.forward order g p b = .ok s') :
    s'.active_builders = s.active_builders := by
  rcases s.forward_ok_cases h with ⟨_, ub, hub, rfl⟩ |
    ⟨_, _, vocab, ids, mb, _, _, _, hmb, rfl⟩ |
    ⟨_, _, vocab, ids, lb, _, _, _, hlb, rfl⟩
  · simp [ngram_handler.active_builders, hub]
  · simp [ngram_handler.active_builders, hmb]
  · simp [ngram_handler.active_builders, hlb]

/-- Reduction of `handle` past a successful order transition and count
lookup: what remains is the count check followed by `forward` on the state
with the observed count already incremented. -/
theorem ngram_handler.handle_eq {s s₁ : ngram_handler} {order : Nat}
    {g : String} {p b : float32} {c : Nat}
    (hadv : s.advance_order order = .ok s₁)
    (hc : s₁.counts_.get? order = some c) :
    s.handle order g p b =
      if c < s₁.observed_ + 1 then .error (.tooManyGrams order)
      else ngram_handler.forward { s₁ with observed_ := s₁.observed_ + 1 } order g p b := by
  unfold ngram_handler.handle
  simp only [hadv, hc]

/-- `resolve_ids` fails with the first unresolved token: when every token
of `pre` has an id and `t` has none, resolution of `pre ++ t :: suf` stops
at `t`. -/
theorem resolve_ids_first_unknown (v : Vocab) (pre suf : List String) (t : String)
    (hpre : ∀ x ∈ pre, (v.index x).isSome = true)
    (ht : v.index t = none) :
    resolve_ids v (pre ++ t :: suf) = .error (.unknownUnigram t) := by
  induction pre with
  | nil => simp [resolve_ids, ht]
  | cons x xs ih =>
    obtain ⟨i, hi⟩ := Option.isSome_iff_exists.mp (hpre x (by simp))
    have ih' := ih (fun y hy => hpre y (by simp [hy]))
    simp [resolve_ids, hi, ih']

/-- When token resolution fails, `forward` fails with the same error
before touching any builder. -/
theorem ngram_handler.forward_unknown {s : ngram_handler} {order : Nat}
    {g : String} {p b : float32} {t : String} {vocab : Vocab}
    (hne0 : s.order_ ≠ 0)
    (hbld : ¬(s.middle_builder_ = none ∧ s.last_builder_ = none))
    (hvoc : s.unigrams_ = some vocab)
    (hres : resolve_ids vocab (tokenize g) = .error (.unknownUnigram t)) :
    s.forward order g p b = .error (.unknownUnigram t) := by
  unfold ngram_handler.forward
  simp only [if_neg hne0, if_neg hbld, hvoc, hres]

/-! ### The claim theorems -/

/-- Claim C3: every handled tuple increments the observed count for the
current order; as soon as the incremented count exceeds the declared count
`counts[order]`, `handle` fails with `TooManyGramsError` naming that order
(the error result models the C++ throw, which happens before any builder
insertion, so the over-count gram is never forwarded); and on every
successful call the observed count ends at most the declared count. -/
theorem handle_count_enforcement (s s₁ : ngram_handler) (order : Nat)
    (g : String) (p b : float32) (c : Nat)
    (hord : s.order_ ≤ order)
    (hadv : s.advance_order order = .ok s₁)
    (hc : s₁.counts_.get? order = some c) :
    s₁.order_ = order ∧
    (c < s₁.observed_ + 1 → s.handle order g p b = .error (.tooManyGrams order)) ∧
    (∀ s', s.handle order g p b = .ok s' →
        s'.observed_ = s₁.observed_ + 1 ∧ s'.observed_ ≤ c) := by
  refine ⟨s.advance_order_order_eq hadv hord, ?_, ?_⟩
  · intro hover
    rw [ngram_handler.handle_eq hadv hc, if_pos hover]
  · intro s' hok
    rw [ngram_handler.handle_eq hadv hc] at hok
    by_cases hover : c < s₁.observed_ + 1
    · rw [if_pos hover] at hok
      exact absurd hok (by simp)
    · rw [if_neg hover] at hok
      have hobs : s'.observed_ = s₁.observed_ + 1 :=
        (ngram_handler.forward_ok_frame hok).2.2.1
      exact ⟨hobs, by omega⟩

/-- The controller state after the declared two unigrams of a
one-order model have been handled. -/
def c3_state : ngram_handler :=
  { out_dir := "out"
    observed_ := 2
    counts_ := [2]
    unigram_builder_ := (some { ord := 0
                                num_keys := 2
                                entries := [("a", ⟨⟨-1, 0⟩, ⟨-1, 1⟩⟩),
                                            ("b", ⟨⟨-2, 0⟩, ⟨-1, 5⟩⟩)] }) }

/-- Witness for claim C3: handling a third unigram against a declared
count of 2 fails with `TooManyGramsError` for order 0. -/
theorem handle_count_enforcement_inst :
    c3_state.handle 0 "c" ⟨-3, 0⟩ float32.zero = .error (.tooManyGrams 0) :=
  (handle_count_enforcement c3_state c3_state 0 "c" ⟨-3, 0⟩ float32.zero 2
      (by decide) (by decide) (by decide)).2.1 (by decide)

/-- Claim C4: a gram handled while the current order is ≥ 1 has its text
split on whitespace and each token resolved through the vocabulary; if some
token has no id, `handle` fails with `UnknownUnigramError` naming the first
such token (the error result models the C++ throw, raised inside the token
loop before any builder insertion, so nothing is forwarded for this
gram). -/
theorem handle_unknown_unigram (s s₁ : ngram_handler) (order : Nat)
    (g : String) (p b : float32) (c : Nat) (vocab : Vocab)
    (pre suf : List String) (t : String)
    (hadv : s.advance_order order = .ok s₁)
    (hc : s₁.counts_.get? order = some c)
    (hcnt : s₁.observed_ + 1 ≤ c)
    (hne0 : s₁.order_ ≠ 0)
    (hbld : ¬(s₁.middle_builder_ = none ∧ s₁.last_builder_ = none))
    (hvoc : s₁.unigrams_ = some vocab)
    (htok : tokenize g = pre ++ t :: suf)
    (hpre : ∀ x ∈ pre, (vocab.index x).isSome = true)
    (ht : vocab.index t = none) :
    s.handle order g p b = .error (.unknownUnigram t) := by
  rw [ngram_handler.handle_eq hadv hc, if_neg (by omega)]
  have hres : resolve_ids vocab (tokenize g) = .error (.unknownUnigram t) := by
    rw [htok]
    exact resolve_ids_first_unknown vocab pre suf t hpre ht
  exact ngram_handler.forward_unknown hne0 hbld hvoc hres

/-- A controller state inside the order-1 block of a two-order model whose
vocabulary holds only the word `a`. -/
def c4_state : ngram_handler :=
  { out_dir := "out"
    order_ := 1
    observed_ := 0
    counts_ := [1, 1]
    middle_builder_ := (some { ord := 1, num_keys := 1, entries := [] })
    unigrams_ := some ⟨["a"]⟩ }

/-- Witness for claim C4: handling the bigram `a c` when `c` is not in the
vocabulary fails with `UnknownUnigramError` naming `c`. -/
theorem handle_unknown_unigram_inst :
    c4_state.handle 1 "a c" ⟨-5, 1⟩ float32.zero = .error (.unknownUnigram "c") :=
  handle_unknown_unigram c4_state c4_state 1 "a c" ⟨-5, 1⟩ float32.zero 1 ⟨["a"]⟩
    ["a"] [] "c" (by decide) (by decide) (by decide) (by decide) (by decide)
    (by decide) (by decide) (by decide) (by decide)

/-- Claim C5: on every successful `handle`, the value forwarded to a
builder is the `{prob, backoff}` pair whenever the current order is not the
maximum declared order (orders 0 and all middle orders), and the
probability alone at the maximum declared order (the parsed backoff is
dropped). -/
theorem handle_forwarded_values (s s₁ s' : ngram_handler) (order : Nat)
    (g : String) (p b : float32) (c : Nat)
    (hadv : s.advance_order order = .ok s₁)
    (hc : s₁.counts_.get? order = some c)
    (hne : s₁.counts_ ≠ [])
    (hok : s.handle order g p b = .ok s') :
    (s₁.order_ = 0 → ∃ ub, s₁.unigram_builder_ = some ub ∧
        s'.unigram_builder_ = (some { ub with
          entries := ub.entries ++ [(g, ⟨p, b⟩)] })) ∧
    (s₁.order_ ≠ 0 → s₁.order_ ≠ s₁.counts_.length - 1 →
        ∃ mb ids vocab, s₁.unigrams_ = some vocab ∧
          resolve_ids vocab (tokenize g) = .ok ids ∧
          s₁.middle_builder_ = some mb ∧
          s'.middle_builder_ = (some { mb with
            entries := mb.entries ++ [(ids, ⟨p, b⟩)] })) ∧
    (s₁.order_ ≠ 0 → s₁.order_ = s₁.counts_.length - 1 →
        ∃ lb ids vocab, s₁.unigrams_ = some vocab ∧
          resolve_ids vocab (tokenize g) = .ok ids ∧
          s₁.last_builder_ = some lb ∧
          s'.last_builder_ = (some { lb with
            entries := lb.entries ++ [(ids, p)] })) := by
  rw [ngram_handler.handle_eq hadv hc] at hok
  by_cases hover : c < s₁.observed_ + 1
  · rw [if_pos hover] at hok
    exact absurd hok (by simp)
  · rw [if_neg hover] at hok
    have hss : size_sub_one s₁.counts_.length = s₁.counts_.length - 1 := by
      unfold size_sub_one
      rw [if_neg (by simpa using hne)]
    rcases ngram_handler.forward_ok_cases hok with
      ⟨h0, ub, hub, rfl⟩ |
      ⟨h0, hmax, vocab, ids, mb, hvoc, hres, _, hmb, rfl⟩ |
      ⟨h0, hmax, vocab, ids, lb, hvoc, hres, _, hlb, rfl⟩
    · refine ⟨fun _ => ⟨ub, hub, rfl⟩, fun hne0 _ => absurd h0 hne0,
        fun hne0 _ => absurd h0 hne0⟩
    · have hmax' : s₁.order_ ≠ s₁.counts_.length - 1 := by
        rw [← hss]
        exact hmax
      exact ⟨fun h0' => absurd h0' h0,
        fun _ _ => ⟨mb, ids, vocab, hvoc, hres, hmb, rfl⟩,
        fun _ heq => absurd heq hmax'⟩
    · have hmax' : s₁.order_ = s₁.counts_.length - 1 := by
        rw [← hss]
        exact hmax
      exact ⟨fun h0' => absurd h0' h0,
        fun _ hneq => absurd hmax' hneq,
        fun _ _ => ⟨lb, ids, vocab, hvoc, hres, hlb, rfl⟩⟩

/-- A controller state inside the order-1 block of a three-order model:
order 1 is a middle order, so its builder receives `{prob, backoff}`
pairs. -/
def c5_state : ngram_handler :=
  { out_dir := "out"
    order_ := 1
    observed_ := 0
    counts_ := [1, 1, 1]
    middle_builder_ := (some { ord := 1, num_keys := 1, entries := [] })
    unigrams_ := some ⟨["a"]⟩ }

/-- The state produced by handling the bigram `a a` from `c5_state`. -/
def c5_after : ngram_handler :=
  except_get_d (c5_state.handle 1 "a a" ⟨-5, 1⟩ ⟨-2, 1⟩) empty_handler

/-- Witness for claim C5: at a non-maximum order the forwarded value is the
full `{prob, backoff}` pair. -/
theorem handle_forwarded_values_inst :
    c5_after.middle_builder_ =
      (some { ord := 1, num_keys := 1, entries := [([0, 0], ⟨⟨-5, 1⟩, ⟨-2, 1⟩⟩)] }) := by
  obtain ⟨mb, ids, vocab, hvoc, hres, hmb, hmb'⟩ :=
    (handle_forwarded_values c5_state c5_state c5_after 1 "a a" ⟨-5, 1⟩ ⟨-2, 1⟩ 1
      (by decide) (by decide) (by decide) (by decide)).2.1 (by decide) (by decide)
  have hvocab : vocab = ⟨["a"]⟩ :=
    Option.some.inj (hvoc.symm.trans (show c5_state.unigrams_ = some ⟨["a"]⟩ by decide))
  subst hvocab
  have hids : ids = [0, 0] :=
    Except.ok.inj (hres.symm.trans
      (show resolve_ids ⟨["a"]⟩ (tokenize "a a") = .ok [0, 0] by decide))
  subst hids
  have hmbv : mb = ⟨1, 1, []⟩ :=
    Option.some.inj (hmb.symm.trans
      (show c5_state.middle_builder_ = some ⟨1, 1, []⟩ by decide))
  subst hmbv
  exact hmb'

/-! ### The builder discipline (claim C6) -/

/-- The builder-discipline invariant of the controller: at most one builder
is live at a time, and before any count has been declared no builder is
live at all. -/
def ngram_handler.inv (s : ngram_handler) : Prop :=
  s.active_builders ≤ 1 ∧
  (s.counts_ = [] → s.unigram_builder_ = none ∧ s.middle_builder_ = none ∧
    s.last_builder_ = none)

/-- With at most one live builder, at least two of the three slots are
empty. -/
theorem ngram_handler.builders_cases {s : ngram_handler}
    (h1 : s.active_builders ≤ 1) :
    (s.middle_builder_ = none ∧ s.last_builder_ = none) ∨
    (s.unigram_builder_ = none ∧ s.last_builder_ = none) ∨
    (s.unigram_builder_ = none ∧ s.middle_builder_ = none) := by
  cases hu : s.unigram_builder_ <;> cases hm : s.middle_builder_ <;>
    cases hl : s.last_builder_ <;> simp_all [ngram_handler.active_builders]

/-- The freshly constructed handler holds no builder. -/
theorem inv_initial (d : String) : (initial_handler d).inv :=
  ⟨Nat.zero_le 1, fun _ => ⟨rfl, rfl, rfl⟩⟩

/-- `count` preserves the builder discipline: the unigram builder is only
created on the first declared count, when no builder exists yet. -/
theorem inv_count (s : ngram_handler) (n : Nat) (h : s.inv) : (s.count n).inv := by
  unfold ngram_handler.count
  split
  · next hemp =>
    obtain ⟨_, hm, hl⟩ := h.2 hemp
    refine ⟨by simp [ngram_handler.active_builders, hm, hl], fun hc => ?_⟩
    simp at hc
  · next hemp =>
    exact ⟨h.1, fun hc => by simp at hc⟩

/-- `finish_order` preserves the builder discipline, appends exactly one
written map, leaves the unigram builder released, and any live builder of
the new state is a freshly created, empty builder for order
`order_ + 1`. -/
theorem finish_order_inv (s s' : ngram_handler) (h : s.inv)
    (hf : s.finish_order = .ok s') :
    s'.inv ∧ (∃ wm, s'.written = s.written ++ [wm]) ∧
    s'.unigram_builder_ = none ∧
    (∀ mb, s'.middle_builder_ = some mb → mb.ord = s.order_ + 1 ∧ mb.entries = []) ∧
    (∀ lb, s'.last_builder_ = some lb → lb.ord = s.order_ + 1 ∧ lb.entries = []) := by
  rcases s.finish_order_ok_cases hf with
    ⟨h0, ub, k, hub, hk, rfl⟩ | ⟨h0, hlt, hlt2, mb, k, hmb, hk, rfl⟩ |
    ⟨h0, hlt, hlt2, mb, k, hmb, hk, rfl⟩ | ⟨h0, hlt, lb, hlb, rfl⟩
  · rcases ngram_handler.builders_cases h.1 with ⟨hm, hl⟩ | ⟨hu, _⟩ | ⟨hu, _⟩
    · refine ⟨⟨by simp [ngram_handler.active_builders, hl], fun hc => ?_⟩,
        ⟨.unigram 0 ub.entries, rfl⟩, rfl,
        fun mb hmb' => by cases Option.some.inj hmb'; exact ⟨rfl, rfl⟩,
        fun lb hlb' => absurd (hl.symm.trans hlb') (by simp)⟩
      rw [hc] at hk
      simp at hk
    · exact absurd (hu.symm.trans hub) (by simp)
    · exact absurd (hu.symm.trans hub) (by simp)
  · rcases ngram_handler.builders_cases h.1 with ⟨hm, _⟩ | ⟨hu, hl⟩ | ⟨_, hm⟩
    · exact absurd (hm.symm.trans hmb) (by simp)
    · refine ⟨⟨by simp [ngram_handler.active_builders, hu, hl], fun hc => ?_⟩,
        ⟨.middle mb.ord mb.entries, rfl⟩, hu,
        fun mb' hmb' => by cases Option.some.inj hmb'; exact ⟨rfl, rfl⟩,
        fun lb hlb' => absurd (hl.symm.trans hlb') (by simp)⟩
      rw [hc] at hk
      simp at hk
    · exact absurd (hm.symm.trans hmb) (by simp)
  · rcases ngram_handler.builders_cases h.1 with ⟨hm, _⟩ | ⟨hu, hl⟩ | ⟨_, hm⟩
    · exact absurd (hm.symm.trans hmb) (by simp)
    · refine ⟨⟨by simp [ngram_handler.active_builders, hu], fun hc => ?_⟩,
        ⟨.middle mb.ord mb.entries, rfl⟩, hu,
        fun mb' hmb' => Option.noConfusion hmb',
        fun lb' hlb' => by cases Option.some.inj hlb'; exact ⟨rfl, rfl⟩⟩
      rw [hc] at hk
      simp at hk
    · exact absurd (hm.symm.trans hmb) (by simp)
  · rcases ngram_handler.builders_cases h.1 with ⟨_, hl⟩ | ⟨hu, hl⟩ | ⟨hu, hm⟩
    · exact absurd (hl.symm.trans hlb) (by simp)
    · exact absurd (hl.symm.trans hlb) (by simp)
    · exact ⟨⟨by simp [ngram_handler.active_builders, hu, hm], fun _ => ⟨hu, hm, rfl⟩⟩,
        ⟨.last lb.ord lb.entries, rfl⟩, hu,
        fun mb' hmb' => absurd (hm.symm.trans hmb') (by simp),
        fun lb' hlb' => Option.noConfusion hlb'⟩

/-- `handle` preserves the builder discipline. -/
theorem handle_inv (s s' : ngram_handler) (order : Nat) (g : String)
    (p b : float32) (h : s.inv) (hok : s.handle order g p b = .ok s') :
    s'.inv := by
  cases hadv : s.advance_order order with
  | error e =>
    have hbad : s.handle order g p b = .error e := by
      unfold ngram_handler.handle
      simp only [hadv]
    rw [hbad] at hok
    exact absurd hok (by simp)
  | ok s₁ =>
    have hinv₁ : s₁.inv := by
      rcases s.advance_order_ok_cases hadv with ⟨_, rfl⟩ | ⟨_, s₂, hfin, rfl⟩
      · exact h
      · exact (finish_order_inv s s₂ h hfin).1
    cases hc : s₁.counts_.get? order with
    | none =>
      have hbad : s.handle order g p b = .error .oobIndex := by
        unfold ngram_handler.handle
        simp only [hadv, hc]
      rw [hbad] at hok
      exact absurd hok (by simp)
    | some c =>
      rw [ngram_handler.handle_eq hadv hc] at hok
      split at hok
      · exact absurd hok (by simp)
      · have hact := ngram_handler.forward_ok_active hok
        have hfr := ngram_handler.forward_ok_frame hok
        refine ⟨by rw [hact]; exact hinv₁.1, fun hce => ?_⟩
        have hce₁ : s₁.counts_ = [] := hfr.2.2.2.1 ▸ hce
        obtain ⟨hu, hm, hl⟩ := hinv₁.2 hce₁
        rcases ngram_handler.forward_ok_cases hok with
          ⟨_, ub, hub, rfl⟩ | ⟨_, _, vocab, ids, mb, _, _, _, hmb, rfl⟩ |
          ⟨_, _, vocab, ids, lb, _, _, _, hlb, rfl⟩
        · exact absurd (hu.symm.trans hub) (by simp)
        · exact absurd (hm.symm.trans hmb) (by simp)
        · exact absurd (hl.symm.trans hlb) (by simp)

/-- Claim C6: throughout a build at most one builder is live at any time
(`inv` holds initially and is preserved by `count`, `finish_order` and
`handle`), the builder for order `k + 1` is created, empty, only by the
`finish_order` step that also writes order `k`'s map, and after every
successful `finish_order` — in particular the order-0 transition — the
unigram builder reference is released. -/
theorem single_active_builder :
    (∀ d : String, (initial_handler d).inv) ∧
    (∀ (s : ngram_handler) (n : Nat), s.inv → (s.count n).inv) ∧
    (∀ s s' : ngram_handler, s.inv → s.finish_order = .ok s' →
        s'.inv ∧ (∃ wm, s'.written = s.written ++ [wm]) ∧
        s'.unigram_builder_ = none ∧
        (∀ mb, s'.middle_builder_ = some mb → mb.ord = s.order_ + 1 ∧ mb.entries = []) ∧
        (∀ lb, s'.last_builder_ = some lb → lb.ord = s.order_ + 1 ∧ lb.entries = [])) ∧
    (∀ (s s' : ngram_handler) (order : Nat) (g : String) (p b : float32),
        s.inv → s.handle order g p b = .ok s' → s'.inv) :=
  ⟨inv_initial, inv_count, finish_order_inv, handle_inv⟩

/-- A controller state of a two-order model at the end of order 0, with the
single declared unigram inserted. -/
def c6_state : ngram_handler :=
  { out_dir := "out"
    observed_ := 1
    counts_ := [1, 1]
    unigram_builder_ := (some { ord := 0
                                num_keys := 1
                                entries := [("a", ⟨⟨-1, 0⟩, ⟨0, 0⟩⟩)] }) }

/-- The state `finish_order` produces from `c6_state`. -/
def c6_after : ngram_handler := except_get_d c6_state.finish_order empty_handler

/-- Witness for claim C6: finalizing order 0 of `c6_state` preserves the
discipline and releases the unigram builder. -/
theorem single_active_builder_inst :
    c6_after.inv ∧ c6_after.unigram_builder_ = none :=
  let h := single_active_builder.2.2.1 c6_state c6_after
    ⟨by decide, fun hc => absurd hc (by decide)⟩ (by decide)
  ⟨h.1, h.2.2.1⟩

/-! ### Tab splitting of data lines (claim C8) -/

/-- `split_first` finds nothing when the character does not occur. -/
theorem split_first_of_not_mem {c : Char} {l : List Char} (h : c ∉ l) :
    split_first c l = none := by
  induction l with
  | nil => rfl
  | cons x xs ih =>
    rw [List.mem_cons, not_or] at h
    have hxc : ¬ x = c := fun he => h.1 he.symm
    simp [split_first, hxc, ih h.2]

/-- `split_first` splits at the first occurrence. -/
theorem split_first_append {c : Char} {l₁ l₂ : List Char} (h : c ∉ l₁) :
    split_first c (l₁ ++ c :: l₂) = some (l₁, l₂) := by
  induction l₁ with
  | nil => simp [split_first]
  | cons x xs ih =>
    rw [List.mem_cons, not_or] at h
    have hxc : ¬ x = c := fun he => h.1 he.symm
    simp [split_first, hxc, ih h.2]

/-- Claim C8: a data line `probability \t gram-text \t backoff` parses to
the probability, the gram text strictly between the two tabs, and the
parsed backoff; a data line with no second tab parses with backoff exactly
`0.0`. -/
theorem data_line_tab_parsing (p g b : List Char) (q r : float32)
    (hp : '\t' ∉ p) (hg : '\t' ∉ g)
    (hq : parse_float p = some q) (hb : parse_float b = some r) :
    parse_data_line (p ++ '\t' :: (g ++ '\t' :: b)) = .ok (q, String.mk g, r) ∧
    parse_data_line (p ++ '\t' :: g) = .ok (q, String.mk g, float32.zero) := by
  constructor
  · unfold parse_data_line
    simp only [split_first_append hp, hq, split_first_append hg, hb]
  · unfold parse_data_line
    simp only [split_first_append hp, hq, split_first_of_not_mem hg]

/-- Witness for claim C8 on the concrete line
`-0.5 \t a b \t -0.2` and its backoff-less form. -/
theorem data_line_tab_parsing_inst :
    parse_data_line ("-0.5".data ++ '\t' :: ("a b".data ++ '\t' :: "-0.2".data)) =
      .ok (⟨-5, 1⟩, String.mk "a b".data, ⟨-2, 1⟩) ∧
    parse_data_line ("-0.5".data ++ '\t' :: "a b".data) =
      .ok (⟨-5, 1⟩, String.mk "a b".data, float32.zero) :=
  data_line_tab_parsing "-0.5".data "a b".data "-0.2".data ⟨-5, 1⟩ ⟨-2, 1⟩
    (by decide) (by decide) (by decide) (by decide)

/-! ### Filesystem traces only grow (claim C9) -/

/-- `count` only appends to the filesystem trace. -/
theorem count_trace (s : ngram_handler) (n : Nat) :
    ∃ t, (s.count n).trace = s.trace ++ t := by
  unfold ngram_handler.count
  split
  · exact ⟨[.makeDirectory (s.out_dir ++ "/0/")], rfl⟩
  · exact ⟨[], by simp⟩

/-- `finish_order` only appends to the filesystem trace. -/
theorem finish_order_trace {s s' : ngram_handler} (h : s.finish_order = .ok s') :
    ∃ t, s'.trace = s.trace ++ t := by
  rcases s.finish_order_ok_cases h with
    ⟨_, ub, k, _, _, rfl⟩ | ⟨_, _, _, mb, k, _, _, rfl⟩ |
    ⟨_, _, _, mb, k, _, _, rfl⟩ | ⟨_, _, lb, _, rfl⟩ <;> exact ⟨_, rfl⟩

/-- `advance_order` only appends to the filesystem trace. -/
theorem advance_order_trace {s s₁ : ngram_handler} {order : Nat}
    (h : s.advance_order order = .ok s₁) :
    ∃ t, s₁.trace = s.trace ++ t := by
  rcases s.advance_order_ok_cases h with ⟨_, rfl⟩ | ⟨_, s₂, hf, rfl⟩
  · exact ⟨[], by simp⟩
  · obtain ⟨t, ht⟩ := finish_order_trace hf
    exact ⟨t, ht⟩

/-- `handle` only appends to the filesystem trace. -/
theorem handle_trace {s s' : ngram_handler} {order : Nat} {g : String}
    {p b : float32} (h : s.handle order g p b = .ok s') :
    ∃ t, s'.trace = s.trace ++ t := by
  cases hadv : s.advance_order order with
  | error e =>
    have hbad : s.handle order g p b = .error e := by
      unfold ngram_handler.handle
      simp only [hadv]
    rw [hbad] at h
    exact absurd h (by simp)
  | ok s₁ =>
    cases hc : s₁.counts_.get? order with
    | none =>
      have hbad : s.handle order g p b = .error .oobIndex := by
        unfold ngram_handler.handle
        simp only [hadv, hc]
      rw [hbad] at h
      exact absurd h (by simp)
    | some c =>
      rw [ngram_handler.handle_eq hadv hc] at h
      split at h
      · exact absurd h (by simp)
      · obtain ⟨t, ht⟩ := advance_order_trace hadv
        have hfr : s'.trace = s₁.trace := (ngram_handler.forward_ok_frame h).2.2.2.2.2.2
        exact ⟨t, hfr.trans ht⟩

/-- The data loop only appends to the filesystem trace. -/
theorem read_data_trace :
    ∀ (lines : List String) (s : ngram_handler) (order : Nat) (s' : ngram_handler),
      read_data s order lines = .ok s' → ∃ t, s'.trace = s.trace ++ t := by
  intro lines
  induction lines with
  | nil =>
    intro s order s' h
    unfold read_data at h
    cases Except.ok.inj h
    exact ⟨[], by simp⟩
  | cons line rest ih =>
    intro s order s' h
    unfold read_data at h
    split at h
    · exact ih s order s' h
    · split at h
      · exact ih s order s' h
      · split at h
        · exact ih s (order + 1) s' h
        · split at h
          · exact absurd h (by simp)
          · split at h
            · exact absurd h (by simp)
            · next s₂ hh =>
              obtain ⟨t1, ht1⟩ := handle_trace hh
              obtain ⟨t2, ht2⟩ := ih s₂ order s' h
              exact ⟨t1 ++ t2, by rw [ht2, ht1, List.append_assoc]⟩

/-- The header loop only appends to the filesystem trace. -/
theorem read_header_trace :
    ∀ (lines : List String) (s s' : ngram_handler) (rest : List String),
      read_header s lines = .ok (s', rest) → ∃ t, s'.trace = s.trace ++ t := by
  intro lines
  induction lines with
  | nil =>
    intro s s' rest h
    unfold read_header at h
    simp only [Except.ok.injEq, Prod.mk.injEq] at h
    obtain ⟨h1, _⟩ := h
    subst h1
    exact ⟨[], by simp⟩
  | cons line rest ih =>
    intro s s' rest' h
    unfold read_header at h
    split at h
    · split at h
      · exact absurd h (by simp)
      · next n hn =>
        split at h
        · simp only [Except.ok.injEq, Prod.mk.injEq] at h
          obtain ⟨h1, _⟩ := h
          obtain ⟨t, ht⟩ := count_trace s n
          exact ⟨t, h1 ▸ ht⟩
        · obtain ⟨t1, ht1⟩ := count_trace s n
          obtain ⟨t2, ht2⟩ := ih (s.count n) s' rest' h
          exact ⟨t1 ++ t2, by rw [ht2, ht1, List.append_assoc]⟩
    · split at h
      · simp only [Except.ok.injEq, Prod.mk.injEq] at h
        obtain ⟨h1, _⟩ := h
        subst h1
        exact ⟨[], by simp⟩
      · exact ih s s' rest' h

/-- `read_from_arpa` only appends to the filesystem trace. -/
theorem read_from_arpa_trace {lines : List String} {s s' : ngram_handler}
    (h : read_from_arpa lines s = .ok s') :
    ∃ t, s'.trace = s.trace ++ t := by
  unfold read_from_arpa at h
  split at h
  · exact absurd h (by simp)
  · next s₁ rest hh =>
    obtain ⟨t1, ht1⟩ := read_header_trace lines s s₁ rest hh
    obtain ⟨t2, ht2⟩ := read_data_trace rest s₁ 0 s' h
    exact ⟨t1 ++ t2, by rw [ht2, ht1, List.append_assoc]⟩

/-- Claim C9: `build_from_arpa` removes the output prefix and recreates the
directory as the very first two filesystem operations, before any parsing
or building appends to the trace, and on success it returns the
controller's final (highest built) order. -/
theorem build_destroys_prefix_first (lines : List String) (d : String)
    (n : Nat) (s : ngram_handler)
    (h : build_from_arpa lines d = .ok (n, s)) :
    (initial_handler d).trace = [FsOp.removeAll d, FsOp.makeDirectory d] ∧
    s.trace.take 2 = [FsOp.removeAll d, FsOp.makeDirectory d] ∧
    n = s.order_ := by
  unfold build_from_arpa at h
  split at h
  · exact absurd h (by simp)
  · next s₁ hread =>
    split at h
    · exact absurd h (by simp)
    · next s₂ hfin =>
      simp only [Except.ok.injEq, Prod.mk.injEq] at h
      obtain ⟨h1, h2⟩ := h
      subst h1
      subst h2
      obtain ⟨t1, ht1⟩ := read_from_arpa_trace hread
      obtain ⟨t2, ht2⟩ := finish_order_trace hfin
      refine ⟨rfl, ?_, rfl⟩
      rw [ht2, ht1]
      rfl

/-- Witness for claim C9: the successful three-order build of `c9_lines`
starts its trace with the destroy/recreate pair and returns order 2. -/
theorem build_destroys_prefix_first_inst :
    c9_state.trace.take 2 = [FsOp.removeAll "out", FsOp.makeDirectory "out"] ∧
    2 = c9_state.order_ :=
  let h := build_destroys_prefix_first c9_lines "out" 2 c9_state (by decide)
  ⟨h.2.1, h.2.2⟩

/-! ### The remaining claims -/

/-- Claim C10: finalizing order 0 always reads `counts[1]` to size the
successor builder: with at least two declared orders the read is in bounds
and `finish_order` succeeds, but with exactly one declared order it is out
of bounds (`std::vector::operator[]` undefined behaviour), so the final
`finish_order` of a unigram-only build — `c10_lines` — can never complete
cleanly. -/
theorem unigram_only_counts_oob :
    (∀ (s : ngram_handler) (ub : unigram_builder_type), s.order_ = 0 →
        s.unigram_builder_ = some ub → s.counts_.length = 1 →
        s.finish_order = .error .oobIndex) ∧
    (∀ (s : ngram_handler) (ub : unigram_builder_type), s.order_ = 0 →
        s.unigram_builder_ = some ub → 2 ≤ s.counts_.length →
        except_is_ok s.finish_order = true) ∧
    build_from_arpa c10_lines "out" = .error .oobIndex := by
  refine ⟨?_, ?_, by decide⟩
  · intro s ub h0 hub hlen
    have hnone : s.counts_.get? (s.order_ + 1) = none := by
      rw [List.get?_eq_none]
      omega
    unfold ngram_handler.finish_order
    simp only [if_pos h0, hub, hnone]
  · intro s ub h0 hub hlen
    have hlt : 1 < s.counts_.length := by omega
    have hk : s.counts_.get? (s.order_ + 1) = some (s.counts_.get ⟨1, hlt⟩) := by
      rw [h0]
      exact List.get?_eq_get hlt
    unfold ngram_handler.finish_order
    simp only [if_pos h0, hub, hk]
    rfl

/-- The controller state of a unigram-only model (one declared order) after
both declared unigrams were handled. -/
def c10_state : ngram_handler :=
  { out_dir := "o"
    observed_ := 2
    counts_ := [2]
    unigram_builder_ := (some { ord := 0
                                num_keys := 2
                                entries := [("a", ⟨⟨-1, 0⟩, ⟨-1, 1⟩⟩),
                                            ("b", ⟨⟨-2, 0⟩, ⟨-1, 5⟩⟩)] }) }

/-- Witness for claim C10: finalizing order 0 with a single declared order
reads `counts[1]` out of bounds. -/
theorem unigram_only_counts_oob_inst :
    c10_state.finish_order = .error .oobIndex :=
  unigram_only_counts_oob.1 c10_state
    ⟨0, 2, [("a", ⟨⟨-1, 0⟩, ⟨-1, 1⟩⟩), ("b", ⟨⟨-2, 0⟩, ⟨-1, 5⟩⟩)]⟩ rfl rfl rfl

/-- Claim C1 (code-bug evidence): finalizing order 0 of a two-order model
(`counts = [3, 2]`, so order 1 is the final declared order) creates the
middle-kind builder with `num_keys = counts[1]`, not the last-kind builder
the claim and the spec require; the first order-1 gram handled afterwards
dereferences the null last builder. -/
theorem finish_order_zero_always_middle_kind :
    c1_state.finish_order = .ok c1_after ∧
    c1_after.middle_builder_ = (some { ord := 1, num_keys := 2, entries := [] }) ∧
    c1_after.last_builder_ = none ∧
    c1_state.handle 1 "a b" ⟨-5, 1⟩ float32.zero = .error .nullDeref :=
  ⟨by decide, by decide, by decide, by decide⟩

/-- Claim C2 (code-bug evidence): on the spec's two-order end-to-end ARPA
file the build does not complete and produces no maps to look up: it dies
dereferencing the null last-order builder at the first bigram. -/
theorem two_order_build_crashes_null_last_builder :
    build_from_arpa c2_lines "out" = .error .nullDeref := by decide

/-- Claim C7 counterexample: with `ngram 1=2` declared and three unigram
lines supplied, the run is still error-free after the two declared lines
and already fails with `TooManyGramsError` while handling the third line —
the first line beyond the declared count.  A second extra line never
exists in this file, so the failure cannot be located after one. -/
theorem too_many_grams_on_first_extra_line :
    except_is_ok (read_from_arpa c7_first_lines (initial_handler "out")) = true ∧
    read_from_arpa c7_lines (initial_handler "out") = .error (.tooManyGrams 0) :=
  ⟨by decide, by decide⟩

/-- Claim C7 amended: declaring `ngram 1=2` but supplying three unigram
lines raises `TooManyGramsError` (naming order 0) when the first line
beyond the declared count — the third unigram line — is read. -/
theorem build_too_many_grams_third_line :
    build_from_arpa c7_lines "out" = .error (.tooManyGrams 0) ∧
    except_is_ok (read_from_arpa c7_first_lines (initial_handler "out")) = true :=
  ⟨by decide, by decide⟩

end MphLM

